import Mathlib

/-!
Verification development for the `large_transactioneer` repository.

Shallow embedding of the transaction submission engine of `src/sender.py`
(and its queue-driven variant `src/transactioneer_with_queue.py`), the
bounded work queue, and the funding scheduler of `src/quick_funding.py`.

Modelling conventions:
* account addresses are opaque identifiers, modelled as `Nat` (the code only
  ever compares them and uses them as dictionary keys);
* the pool of RPC sync nodes is modelled by its size `numSyncNodes`; an
  endpoint is identified with its index in `w3_instances`;
* external effects (the signing library and `send_raw_transaction`) are passed
  in as oracle functions; a Python exception raised by them is an
  `Except.error` / `TxResult.exn` value carrying the exception message, and
  the `try/except` structure of the source is mirrored by matching on it.
-/

/-- One signing account, as loaded from `accounts.json` (`src/sender.py`):
`{address, private_key, index}`. -/
structure Account where
  address : Nat
  private_key : String
  index : Nat
deriving DecidableEq, Repr

/-- The SpotData payload parameters (`self.spot_data_params` in
`src/sender.py`, or one queue element in `src/transactioneer_with_queue.py`). -/
structure TxParams where
  file_hashs : List String
  url_domains : List String
  item_counts : List Nat
  extra : String
deriving DecidableEq, Repr

/-- The transaction dict produced by
`contract.functions.SpotData(...).build_transaction({...})`
(`src/sender.py` lines 250-262). -/
structure Transaction where
  params : TxParams
  from_address : Nat
  nonce : Nat
  value : Nat
  gas : Nat
  gasPrice : Nat
  chainId : Int
deriving DecidableEq, Repr

/-- A signed transaction as returned by `sign_transaction`; only its raw
bytes (`signed_tx.rawTransaction`) are ever used afterwards. -/
structure SignedTx where
  rawTransaction : List Nat
deriving DecidableEq, Repr

/-- Result of `w3_write.eth.send_raw_transaction`: either a transaction hash
or a raised exception carrying its message string. -/
inductive TxResult where
  | ok (txHash : String)
  | exn (msg : String)
deriving DecidableEq, Repr

/-- The mutable state of `ExordeHighSpeedSender` that the submission engine
touches (`src/sender.py` lines 31-65): the sync-node rotation, the per-account
nonce map (`defaultdict(int)`), the running counters, and the static
transaction settings. -/
structure SenderState where
  numSyncNodes : Nat
  current_sync_node_index : Nat
  account_nonces : Nat → Nat
  submissions_count : Nat
  successful_submissions : Nat
  failed_submissions : Nat
  nonce_realignments : Nat
  accounts : List Account
  spot_data_params : TxParams
  gas_limit : Nat
  gas_price : Nat
  chain_id : Int

/-- Function `get_next_sync_node` (`src/sender.py` lines 215-220): returns the endpoint
at the current rotation cursor and advances the cursor modulo the pool size.
Used for *both* read traffic (gas price / nonce lookups, the `w3_read` of line
247) and write traffic (the `w3_write` of line 272). -/
def get_next_sync_node (s : SenderState) : Nat × SenderState :=
  (s.current_sync_node_index,
   { s with current_sync_node_index :=
       (s.current_sync_node_index + 1) % s.numSyncNodes })

/-- Function `get_next_nonce` (`src/sender.py` lines 228-233): read the account's
counter, increment it, return the value read. -/
def get_next_nonce (s : SenderState) (address : Nat) : Nat × SenderState :=
  let current_nonce := s.account_nonces address
  (current_nonce,
   { s with account_nonces :=
       fun a => if a = address then current_nonce + 1 else s.account_nonces a })

/-- The transaction built at `src/sender.py` lines 250-262. -/
def build_transaction (s : SenderState) (address : Nat) (nonce : Nat) :
    Transaction :=
  { params := s.spot_data_params
    from_address := address
    nonce := nonce
    value := 0
    gas := s.gas_limit
    gasPrice := s.gas_price
    chainId := s.chain_id }

/-- Substring containment on character lists (Python's `sub in s`). -/
def containsSub (pat : List Char) : List Char → Bool
  | [] => pat.isEmpty
  | c :: cs => pat.isPrefixOf (c :: cs) || containsSub pat cs

/-- The error classification of `src/sender.py` line 293: Python's
`"same nonce already exists" in error_msg` (substring containment). -/
def isNonceCollisionMsg (msg : String) : Bool :=
  containsSub ("same nonce already exists".data) msg.data

/-- Instrumentation: the observable actions of one submission, used to state
the spec's once-per-WorkItem properties. -/
inductive Event where
  | reserve (address : Nat) (nonce : Nat)
  | broadcast (endpoint : Nat) (raw : SignedTx)
deriving DecidableEq, Repr

/-- The value returned by `submit_spotdata_transaction` (`(success, tx_hash)`)
together with the post-state and the event trace. -/
structure SubmitResult where
  success : Bool
  txHash : Option String
  state : SenderState
  events : List Event

/-- The retry loop of `src/sender.py` lines 267-302
(`for retry_attempt in range(max_retries): ...`), with `remaining` the number
of loop iterations still to run. Falling out of the loop (conflict on the last
attempt, `break` on a non-nonce error, or an empty `range`) reaches lines
304-306: `failed_submissions += 1; return False, None`. -/
def submitRetryLoop (net : Nat → SignedTx → TxResult) (signed : SignedTx) :
    Nat → SenderState → List Event → SubmitResult
  | 0, s, evs =>
      { success := false, txHash := none
        state := { s with failed_submissions := s.failed_submissions + 1 }
        events := evs }
  | remaining + 1, s, evs =>
      let (epIdx, s1) := get_next_sync_node s
      let evs1 := evs ++ [Event.broadcast epIdx signed]
      match net epIdx signed with
      | TxResult.ok h =>
          { success := true, txHash := some h
            state := { s1 with
              submissions_count := s1.submissions_count + 1
              successful_submissions := s1.successful_submissions + 1 }
            events := evs1 }
      | TxResult.exn msg =>
          if isNonceCollisionMsg msg then
            if remaining > 0 then
              submitRetryLoop net signed remaining s1 evs1
            else
              { success := false, txHash := none
                state := { s1 with
                  failed_submissions := s1.failed_submissions + 1 }
                events := evs1 }
          else
            { success := false, txHash := none
              state := { s1 with
                failed_submissions := s1.failed_submissions + 1 }
              events := evs1 }

/-- Function `submit_spotdata_transaction` (`src/sender.py` lines 235-311): reserve the
nonce once, build and sign once (`signFn` is the external signing library,
whose exception is the outer `except` path), then the retry loop over sync
nodes. `get_next_contract` (line 244) reads the contract instance at the
current cursor without advancing it and is stateless here; the `w3_read` of
line 247 advances the shared rotation cursor. -/
def submit_spotdata_transaction (s : SenderState) (account : Account)
    (signFn : Transaction → String → Except String SignedTx)
    (net : Nat → SignedTx → TxResult) (max_retries : Nat) : SubmitResult :=
  let address := account.address
  let (nonce, s1) := get_next_nonce s address
  let (_w3ReadIdx, s2) := get_next_sync_node s1
  let transaction := build_transaction s address nonce
  match signFn transaction account.private_key with
  | Except.error _ =>
      { success := false, txHash := none
        state := { s2 with failed_submissions := s2.failed_submissions + 1 }
        events := [Event.reserve address nonce] }
  | Except.ok signed =>
      submitRetryLoop net signed max_retries s2 [Event.reserve address nonce]

/-- Recognize a reservation event. -/
def isReserveEvent : Event → Bool
  | Event.reserve _ _ => true
  | Event.broadcast _ _ => false

/-- The endpoints used by the broadcast events of a trace, in order. -/
def broadcastEndpoints (evs : List Event) : List Nat :=
  evs.filterMap fun e =>
    match e with
    | Event.broadcast ep _ => some ep
    | Event.reserve _ _ => none

theorem isNonceCollisionMsg_conflict :
    isNonceCollisionMsg ("the same nonce already exists in the pool") = true := by
  decide

theorem isNonceCollisionMsg_other :
    isNonceCollisionMsg ("connection refused") = false := by
  decide

/-! ### Helper lemmas about the retry loop -/

theorem submitRetryLoop_step_ok {net : Nat → SignedTx → TxResult}
    {signed : SignedTx} {s : SenderState} {h : String} (n : Nat)
    (evs : List Event)
    (hnet : net s.current_sync_node_index signed = TxResult.ok h) :
    submitRetryLoop net signed (n + 1) s evs =
      { success := true, txHash := some h
        state := { s with
          current_sync_node_index := (s.current_sync_node_index + 1) % s.numSyncNodes
          submissions_count := s.submissions_count + 1
          successful_submissions := s.successful_submissions + 1 }
        events := evs ++ [Event.broadcast s.current_sync_node_index signed] } := by
  simp [submitRetryLoop, get_next_sync_node, hnet]

theorem submitRetryLoop_step_conflict {net : Nat → SignedTx → TxResult}
    {signed : SignedTx} {s : SenderState} {msg : String} (n : Nat)
    (evs : List Event)
    (hnet : net s.current_sync_node_index signed = TxResult.exn msg)
    (hcol : isNonceCollisionMsg msg = true) (hn : 0 < n) :
    submitRetryLoop net signed (n + 1) s evs =
      submitRetryLoop net signed n
        { s with current_sync_node_index :=
            (s.current_sync_node_index + 1) % s.numSyncNodes }
        (evs ++ [Event.broadcast s.current_sync_node_index signed]) := by
  simp [submitRetryLoop, get_next_sync_node, hnet, hcol, hn]

theorem submitRetryLoop_step_exhausted {net : Nat → SignedTx → TxResult}
    {signed : SignedTx} {s : SenderState} {msg : String} (evs : List Event)
    (hnet : net s.current_sync_node_index signed = TxResult.exn msg)
    (hcol : isNonceCollisionMsg msg = true) :
    submitRetryLoop net signed 1 s evs =
      { success := false, txHash := none
        state := { s with
          current_sync_node_index := (s.current_sync_node_index + 1) % s.numSyncNodes
          failed_submissions := s.failed_submissions + 1 }
        events := evs ++ [Event.broadcast s.current_sync_node_index signed] } := by
  simp [submitRetryLoop, get_next_sync_node, hnet, hcol]

theorem submitRetryLoop_step_break {net : Nat → SignedTx → TxResult}
    {signed : SignedTx} {s : SenderState} {msg : String} (n : Nat)
    (evs : List Event)
    (hnet : net s.current_sync_node_index signed = TxResult.exn msg)
    (hcol : isNonceCollisionMsg msg = false) :
    submitRetryLoop net signed (n + 1) s evs =
      { success := false, txHash := none
        state := { s with
          current_sync_node_index := (s.current_sync_node_index + 1) % s.numSyncNodes
          failed_submissions := s.failed_submissions + 1 }
        events := evs ++ [Event.broadcast s.current_sync_node_index signed] } := by
  simp [submitRetryLoop, get_next_sync_node, hnet, hcol]

theorem submitRetryLoop_preserves_nonces (net : Nat → SignedTx → TxResult)
    (signed : SignedTx) :
    ∀ (r : Nat) (s : SenderState) (evs : List Event),
      (submitRetryLoop net signed r s evs).state.account_nonces
        = s.account_nonces := by
  intro r
  induction r with
  | zero => intro s evs; rfl
  | succ n ih =>
      intro s evs
      cases hnet : net s.current_sync_node_index signed with
      | ok h => rw [submitRetryLoop_step_ok n evs hnet]
      | exn msg =>
          cases hcol : isNonceCollisionMsg msg with
          | false => rw [submitRetryLoop_step_break n evs hnet hcol]
          | true =>
              cases n with
              | zero => rw [submitRetryLoop_step_exhausted evs hnet hcol]
              | succ m =>
                  rw [submitRetryLoop_step_conflict (m + 1) evs hnet hcol
                    (Nat.succ_pos m)]
                  rw [ih]

theorem submitRetryLoop_events_shape (net : Nat → SignedTx → TxResult)
    (signed : SignedTx) :
    ∀ (r : Nat) (s : SenderState) (evs : List Event),
      ∀ e ∈ (submitRetryLoop net signed r s evs).events,
        e ∈ evs ∨ ∃ ep, e = Event.broadcast ep signed := by
  intro r
  induction r with
  | zero => intro s evs e he; exact Or.inl he
  | succ n ih =>
      intro s evs e he
      have hstep : e ∈ evs ++ [Event.broadcast s.current_sync_node_index signed] →
          e ∈ evs ∨ ∃ ep', e = Event.broadcast ep' signed := by
        intro h
        rcases List.mem_append.mp h with h1 | h1
        · exact Or.inl h1
        · exact Or.inr ⟨_, List.mem_singleton.mp h1⟩
      cases hnet : net s.current_sync_node_index signed with
      | ok h =>
          rw [submitRetryLoop_step_ok n evs hnet] at he
          exact hstep he
      | exn msg =>
          cases hcol : isNonceCollisionMsg msg with
          | false =>
              rw [submitRetryLoop_step_break n evs hnet hcol] at he
              exact hstep he
          | true =>
              cases n with
              | zero =>
                  rw [submitRetryLoop_step_exhausted evs hnet hcol] at he
                  exact hstep he
              | succ m =>
                  rw [submitRetryLoop_step_conflict (m + 1) evs hnet hcol
                    (Nat.succ_pos m)] at he
                  rcases ih _ _ e he with h1 | h1
                  · exact hstep h1
                  · exact Or.inr h1

theorem submitRetryLoop_events_countP (net : Nat → SignedTx → TxResult)
    (signed : SignedTx) :
    ∀ (r : Nat) (s : SenderState) (evs : List Event),
      ((submitRetryLoop net signed r s evs).events).countP isReserveEvent
        = evs.countP isReserveEvent := by
  intro r
  induction r with
  | zero => intro s evs; rfl
  | succ n ih =>
      intro s evs
      have happ : ∀ t : SenderState,
          (evs ++ [Event.broadcast t.current_sync_node_index signed]).countP
            isReserveEvent = evs.countP isReserveEvent := by
        intro t
        simp [List.countP_append, isReserveEvent]
      cases hnet : net s.current_sync_node_index signed with
      | ok h => rw [submitRetryLoop_step_ok n evs hnet]; exact happ s
      | exn msg =>
          cases hcol : isNonceCollisionMsg msg with
          | false => rw [submitRetryLoop_step_break n evs hnet hcol]; exact happ s
          | true =>
              cases n with
              | zero => rw [submitRetryLoop_step_exhausted evs hnet hcol]; exact happ s
              | succ m =>
                  rw [submitRetryLoop_step_conflict (m + 1) evs hnet hcol
                    (Nat.succ_pos m)]
                  rw [ih]
                  exact happ s

theorem submitRetryLoop_outcome (net : Nat → SignedTx → TxResult)
    (signed : SignedTx) :
    ∀ (r : Nat) (s : SenderState) (evs : List Event),
      ((submitRetryLoop net signed r s evs).success = true
        ∧ (∃ h, (submitRetryLoop net signed r s evs).txHash = some h)
        ∧ (submitRetryLoop net signed r s evs).state.successful_submissions
            = s.successful_submissions + 1
        ∧ (submitRetryLoop net signed r s evs).state.failed_submissions
            = s.failed_submissions)
      ∨ ((submitRetryLoop net signed r s evs).success = false
        ∧ (submitRetryLoop net signed r s evs).txHash = none
        ∧ (submitRetryLoop net signed r s evs).state.failed_submissions
            = s.failed_submissions + 1
        ∧ (submitRetryLoop net signed r s evs).state.successful_submissions
            = s.successful_submissions) := by
  intro r
  induction r with
  | zero => intro s evs; exact Or.inr ⟨rfl, rfl, rfl, rfl⟩
  | succ n ih =>
      intro s evs
      cases hnet : net s.current_sync_node_index signed with
      | ok h =>
          rw [submitRetryLoop_step_ok n evs hnet]
          exact Or.inl ⟨rfl, ⟨h, rfl⟩, rfl, rfl⟩
      | exn msg =>
          cases hcol : isNonceCollisionMsg msg with
          | false =>
              rw [submitRetryLoop_step_break n evs hnet hcol]
              exact Or.inr ⟨rfl, rfl, rfl, rfl⟩
          | true =>
              cases n with
              | zero =>
                  rw [submitRetryLoop_step_exhausted evs hnet hcol]
                  exact Or.inr ⟨rfl, rfl, rfl, rfl⟩
              | succ m =>
                  rw [submitRetryLoop_step_conflict (m + 1) evs hnet hcol
                    (Nat.succ_pos m)]
                  exact ih _ _

theorem map_range_succ_shift {α : Type} (g : Nat → α) (n : Nat) :
    g 0 :: (List.range n).map (fun k => g (k + 1)) = (List.range (n + 1)).map g := by
  rw [List.range_succ_eq_map, List.map_cons, List.map_map]
  rfl

theorem submitRetryLoop_all_conflict (net : Nat → SignedTx → TxResult)
    (signed : SignedTx)
    (hconf : ∀ ep, ∃ msg, net ep signed = TxResult.exn msg
      ∧ isNonceCollisionMsg msg = true) :
    ∀ (r : Nat) (s : SenderState) (evs : List Event),
      s.current_sync_node_index < s.numSyncNodes →
      (submitRetryLoop net signed r s evs).success = false
      ∧ (submitRetryLoop net signed r s evs).txHash = none
      ∧ (submitRetryLoop net signed r s evs).state.failed_submissions
          = s.failed_submissions + 1
      ∧ (submitRetryLoop net signed r s evs).events
          = evs ++ (List.range r).map (fun k =>
              Event.broadcast ((s.current_sync_node_index + k) % s.numSyncNodes)
                signed) := by
  intro r
  induction r with
  | zero =>
      intro s evs _
      exact ⟨rfl, rfl, rfl, by simp [submitRetryLoop]⟩
  | succ n ih =>
      intro s evs hc
      have hN : 0 < s.numSyncNodes := Nat.lt_of_le_of_lt (Nat.zero_le _) hc
      obtain ⟨msg, hnet, hcol⟩ := hconf s.current_sync_node_index
      have hself : s.current_sync_node_index % s.numSyncNodes
          = s.current_sync_node_index := Nat.mod_eq_of_lt hc
      cases n with
      | zero =>
          rw [submitRetryLoop_step_exhausted evs hnet hcol]
          refine ⟨rfl, rfl, rfl, ?_⟩
          simp [List.range_succ, hself]
      | succ m =>
          rw [submitRetryLoop_step_conflict (m + 1) evs hnet hcol
            (Nat.succ_pos m)]
          have hc1 : ((s.current_sync_node_index + 1) % s.numSyncNodes)
              < s.numSyncNodes := Nat.mod_lt _ hN
          obtain ⟨h1, h2, h3, h4⟩ := ih
            { s with current_sync_node_index :=
                (s.current_sync_node_index + 1) % s.numSyncNodes }
            (evs ++ [Event.broadcast s.current_sync_node_index signed]) hc1
          refine ⟨h1, h2, h3, ?_⟩
          rw [h4]
          rw [List.append_assoc]
          congr 1
          have hmap : ∀ k,
              Event.broadcast
                (((s.current_sync_node_index + 1) % s.numSyncNodes + k)
                  % s.numSyncNodes) signed
              = Event.broadcast
                ((s.current_sync_node_index + (k + 1)) % s.numSyncNodes)
                signed := by
            intro k
            rw [Nat.mod_add_mod]
            congr 2
            omega
          calc Event.broadcast s.current_sync_node_index signed ::
                (List.range (m + 1)).map (fun k =>
                  Event.broadcast
                    (((s.current_sync_node_index + 1) % s.numSyncNodes + k)
                      % s.numSyncNodes) signed)
              = Event.broadcast s.current_sync_node_index signed ::
                (List.range (m + 1)).map (fun k =>
                  Event.broadcast
                    ((s.current_sync_node_index + (k + 1)) % s.numSyncNodes)
                    signed) := by
                congr 1
                exact List.map_congr_left fun k _ => hmap k
            _ = (List.range (m + 1 + 1)).map (fun k =>
                  Event.broadcast
                    ((s.current_sync_node_index + k) % s.numSyncNodes)
                    signed) := by
                rw [← map_range_succ_shift (fun k =>
                  Event.broadcast
                    ((s.current_sync_node_index + k) % s.numSyncNodes) signed)
                  (m + 1)]
                simp only [Nat.add_zero, hself]

theorem rotation_nodup (c N R : Nat) (hR : R ≤ N) :
    ((List.range R).map (fun k => (c + k) % N)).Nodup := by
  rcases Nat.eq_zero_or_pos N with hN | hN
  · have hR0 : R = 0 := Nat.le_antisymm (hN ▸ hR) (Nat.zero_le _)
    subst hR0
    simp
  · refine List.Nodup.map_on ?_ (List.nodup_range R)
    intro x hx y hy hxy
    have hx' : x < N := Nat.lt_of_lt_of_le (List.mem_range.mp hx) hR
    have hy' : y < N := Nat.lt_of_lt_of_le (List.mem_range.mp hy) hR
    have hmod : x % N = y % N := Nat.ModEq.add_left_cancel' c hxy
    rwa [Nat.mod_eq_of_lt hx', Nat.mod_eq_of_lt hy'] at hmod

/-- Unfolding `submit_spotdata_transaction` when signing succeeds: the nonce is
reserved, the read rotation advances, and the retry loop runs on the signed
bytes. -/
theorem submit_sign_ok (s : SenderState) (account : Account)
    (signFn : Transaction → String → Except String SignedTx)
    (net : Nat → SignedTx → TxResult) (max_retries : Nat) (signed : SignedTx)
    (hsign : signFn
      (build_transaction s account.address (s.account_nonces account.address))
      account.private_key = Except.ok signed) :
    submit_spotdata_transaction s account signFn net max_retries =
      submitRetryLoop net signed max_retries
        { s with
          account_nonces := fun a =>
            if a = account.address then s.account_nonces account.address + 1
            else s.account_nonces a
          current_sync_node_index :=
            (s.current_sync_node_index + 1) % s.numSyncNodes }
        [Event.reserve account.address (s.account_nonces account.address)] := by
  simp [submit_spotdata_transaction, get_next_nonce, get_next_sync_node, hsign]

/-- Unfolding `submit_spotdata_transaction` when build/sign raises: the outer
`except` path of `src/sender.py` lines 308-311. The nonce was already
consumed. -/
theorem submit_sign_error (s : SenderState) (account : Account)
    (signFn : Transaction → String → Except String SignedTx)
    (net : Nat → SignedTx → TxResult) (max_retries : Nat) (emsg : String)
    (hsign : signFn
      (build_transaction s account.address (s.account_nonces account.address))
      account.private_key = Except.error emsg) :
    submit_spotdata_transaction s account signFn net max_retries =
      { success := false, txHash := none
        state := { s with
          account_nonces := fun a =>
            if a = account.address then s.account_nonces account.address + 1
            else s.account_nonces a
          current_sync_node_index :=
            (s.current_sync_node_index + 1) % s.numSyncNodes
          failed_submissions := s.failed_submissions + 1 }
        events := [Event.reserve account.address
          (s.account_nonces account.address)] } := by
  simp [submit_spotdata_transaction, get_next_nonce, get_next_sync_node, hsign]

/-! ### C1 -/

/-- C1: for every WorkItem processed by `submit_spotdata_transaction`, the
sequence number is reserved exactly once (the account's counter advances by
exactly one and no other account's counter moves; the trace holds exactly one
reservation event) and the transaction is signed exactly once before the retry
loop: every broadcast attempt, on every retry, carries the identical signed
bytes, whether the item ends up succeeding or failing. -/
theorem C1_reserve_once_sign_once (s : SenderState) (account : Account)
    (signFn : Transaction → String → Except String SignedTx)
    (net : Nat → SignedTx → TxResult) (max_retries : Nat) (signed : SignedTx)
    (hsign : signFn
      (build_transaction s account.address (s.account_nonces account.address))
      account.private_key = Except.ok signed) :
    (submit_spotdata_transaction s account signFn net
        max_retries).state.account_nonces account.address
      = s.account_nonces account.address + 1
    ∧ (∀ a, a ≠ account.address →
        (submit_spotdata_transaction s account signFn net
          max_retries).state.account_nonces a = s.account_nonces a)
    ∧ ((submit_spotdata_transaction s account signFn net
        max_retries).events).countP isReserveEvent = 1
    ∧ (∀ ep raw,
        Event.broadcast ep raw ∈
          (submit_spotdata_transaction s account signFn net max_retries).events
        → raw = signed) := by
  rw [submit_sign_ok s account signFn net max_retries signed hsign]
  refine ⟨?_, ?_, ?_, ?_⟩
  · rw [submitRetryLoop_preserves_nonces]
    simp
  · intro a ha
    rw [submitRetryLoop_preserves_nonces]
    simp [ha]
  · rw [submitRetryLoop_events_countP]
    rfl
  · intro ep raw hmem
    rcases submitRetryLoop_events_shape net signed max_retries _ _ _ hmem
      with h1 | h1
    · exact absurd (List.mem_singleton.mp h1) (fun h => Event.noConfusion h)
    · obtain ⟨ep', h2⟩ := h1
      injection h2 with _ h3

/-- Concrete instances used by the witnesses. -/
def sampleParams : TxParams :=
  { file_hashs := ["QmUtQJK2YncnLcBL6W9d8xeJzSmThb2CU7mpbdiC4CpkcE"]
    url_domains := [""]
    item_counts := [0]
    extra := "" }

def sampleState : SenderState :=
  { numSyncNodes := 3
    current_sync_node_index := 0
    account_nonces := fun _ => 0
    submissions_count := 0
    successful_submissions := 0
    failed_submissions := 0
    nonce_realignments := 0
    accounts := []
    spot_data_params := sampleParams
    gas_limit := 700000
    gas_price := 200000
    chain_id := 2139927 }

def sampleAccount : Account :=
  { address := 1, private_key := "k1", index := 0 }

def sampleSigned : SignedTx := { rawTransaction := [1, 2, 3] }

def sampleSignFn : Transaction → String → Except String SignedTx :=
  fun _ _ => Except.ok sampleSigned

def sampleNetOk : Nat → SignedTx → TxResult :=
  fun _ _ => TxResult.ok ("0xhash")

theorem C1_reserve_once_sign_once_witness :
    (sampleSignFn
      (build_transaction sampleState sampleAccount.address
        (sampleState.account_nonces sampleAccount.address))
      sampleAccount.private_key = Except.ok sampleSigned)
    ∧ ((submit_spotdata_transaction sampleState sampleAccount sampleSignFn
          sampleNetOk 3).state.account_nonces sampleAccount.address
        = sampleState.account_nonces sampleAccount.address + 1
      ∧ (∀ a, a ≠ sampleAccount.address →
          (submit_spotdata_transaction sampleState sampleAccount sampleSignFn
            sampleNetOk 3).state.account_nonces a
            = sampleState.account_nonces a)
      ∧ ((submit_spotdata_transaction sampleState sampleAccount sampleSignFn
          sampleNetOk 3).events).countP isReserveEvent = 1
      ∧ (∀ ep raw,
          Event.broadcast ep raw ∈
            (submit_spotdata_transaction sampleState sampleAccount sampleSignFn
              sampleNetOk 3).events
          → raw = sampleSigned)) :=
  ⟨rfl, C1_reserve_once_sign_once sampleState sampleAccount sampleSignFn
    sampleNetOk 3 sampleSigned rfl⟩

/-! ### C2 -/

theorem broadcastEndpoints_reserve_map (a n : Nat) (signed : SignedTx)
    (g : Nat → Nat) (R : Nat) :
    broadcastEndpoints (Event.reserve a n ::
        (List.range R).map (fun k => Event.broadcast (g k) signed))
      = (List.range R).map g := by
  induction R with
  | zero => rfl
  | succ m ih =>
      rw [List.range_succ]
      simp only [List.map_append, List.map_cons, List.map_nil]
      simp only [broadcastEndpoints, List.filterMap_cons, List.filterMap_append]
      simp only [broadcastEndpoints, List.filterMap_cons] at ih
      rw [ih]
      simp [List.range_succ]

/-- C2: if every broadcast attempt raises a sequence-number-conflict error,
then with retry budget `R ≤ numSyncNodes` the engine makes exactly `R`
broadcast attempts, each on a distinct endpoint from the rotation, then
records the WorkItem as failed; it never makes an `R+1`-st attempt. -/
theorem C2_conflict_retry_bound (s : SenderState) (account : Account)
    (signFn : Transaction → String → Except String SignedTx)
    (net : Nat → SignedTx → TxResult) (R : Nat) (signed : SignedTx)
    (hsign : signFn
      (build_transaction s account.address (s.account_nonces account.address))
      account.private_key = Except.ok signed)
    (hconf : ∀ ep, ∃ msg, net ep signed = TxResult.exn msg
      ∧ isNonceCollisionMsg msg = true)
    (hR : R ≤ s.numSyncNodes)
    (hcur : s.current_sync_node_index < s.numSyncNodes) :
    (broadcastEndpoints
        (submit_spotdata_transaction s account signFn net R).events).length = R
    ∧ (broadcastEndpoints
        (submit_spotdata_transaction s account signFn net R).events).Nodup
    ∧ (submit_spotdata_transaction s account signFn net R).success = false
    ∧ (submit_spotdata_transaction s account signFn net R).txHash = none
    ∧ (submit_spotdata_transaction s account signFn net
        R).state.failed_submissions = s.failed_submissions + 1 := by
  have hN : 0 < s.numSyncNodes := Nat.lt_of_le_of_lt (Nat.zero_le _) hcur
  rw [submit_sign_ok s account signFn net R signed hsign]
  obtain ⟨h1, h2, h3, h4⟩ := submitRetryLoop_all_conflict net signed hconf R
    { s with
      account_nonces := fun a =>
        if a = account.address then s.account_nonces account.address + 1
        else s.account_nonces a
      current_sync_node_index :=
        (s.current_sync_node_index + 1) % s.numSyncNodes }
    [Event.reserve account.address (s.account_nonces account.address)]
    (Nat.mod_lt _ hN)
  rw [h4]
  simp only [List.singleton_append]
  rw [broadcastEndpoints_reserve_map]
  refine ⟨by simp, ?_, h1, h2, h3⟩
  exact rotation_nodup ((s.current_sync_node_index + 1) % s.numSyncNodes)
    s.numSyncNodes R hR

def sampleNetConflict : Nat → SignedTx → TxResult :=
  fun _ _ => TxResult.exn ("the same nonce already exists in the pool")

theorem C2_conflict_retry_bound_witness :
    (sampleSignFn
      (build_transaction sampleState sampleAccount.address
        (sampleState.account_nonces sampleAccount.address))
      sampleAccount.private_key = Except.ok sampleSigned)
    ∧ (∀ ep, ∃ msg, sampleNetConflict ep sampleSigned = TxResult.exn msg
        ∧ isNonceCollisionMsg msg = true)
    ∧ 3 ≤ sampleState.numSyncNodes
    ∧ sampleState.current_sync_node_index < sampleState.numSyncNodes
    ∧ ((broadcastEndpoints
          (submit_spotdata_transaction sampleState sampleAccount sampleSignFn
            sampleNetConflict 3).events).length = 3
      ∧ (broadcastEndpoints
          (submit_spotdata_transaction sampleState sampleAccount sampleSignFn
            sampleNetConflict 3).events).Nodup
      ∧ (submit_spotdata_transaction sampleState sampleAccount sampleSignFn
          sampleNetConflict 3).success = false
      ∧ (submit_spotdata_transaction sampleState sampleAccount sampleSignFn
          sampleNetConflict 3).txHash = none
      ∧ (submit_spotdata_transaction sampleState sampleAccount sampleSignFn
          sampleNetConflict 3).state.failed_submissions
          = sampleState.failed_submissions + 1) :=
  ⟨rfl, fun _ => ⟨_, rfl, by decide⟩, by decide, by decide,
    C2_conflict_retry_bound sampleState sampleAccount sampleSignFn
      sampleNetConflict 3 sampleSigned rfl
      (fun _ => ⟨_, rfl, by decide⟩) (by decide) (by decide)⟩

/-! ### C3 -/

/-- C3: when the broadcast raises an error that is not classified as a
sequence-number conflict (the first write endpoint is the one at
`(current_sync_node_index + 1) % numSyncNodes`, after the read selection), the
engine makes exactly one broadcast attempt — regardless of the remaining retry
budget — leaves the loop immediately and records the WorkItem as failed. -/
theorem C3_non_retryable_no_retry (s : SenderState) (account : Account)
    (signFn : Transaction → String → Except String SignedTx)
    (net : Nat → SignedTx → TxResult) (R : Nat) (signed : SignedTx)
    (msg : String)
    (hsign : signFn
      (build_transaction s account.address (s.account_nonces account.address))
      account.private_key = Except.ok signed)
    (hmsg : net ((s.current_sync_node_index + 1) % s.numSyncNodes) signed
      = TxResult.exn msg)
    (hcls : isNonceCollisionMsg msg = false)
    (hR : 1 ≤ R) :
    (broadcastEndpoints
        (submit_spotdata_transaction s account signFn net R).events).length = 1
    ∧ (submit_spotdata_transaction s account signFn net R).success = false
    ∧ (submit_spotdata_transaction s account signFn net R).txHash = none
    ∧ (submit_spotdata_transaction s account signFn net
        R).state.failed_submissions = s.failed_submissions + 1 := by
  obtain ⟨r, rfl⟩ : ∃ r, R = r + 1 := ⟨R - 1, by omega⟩
  rw [submit_sign_ok s account signFn net (r + 1) signed hsign]
  set S : SenderState :=
    { s with
      account_nonces := fun a =>
        if a = account.address then s.account_nonces account.address + 1
        else s.account_nonces a
      current_sync_node_index :=
        (s.current_sync_node_index + 1) % s.numSyncNodes } with hS
  have hmsg' : net S.current_sync_node_index signed = TxResult.exn msg := hmsg
  rw [submitRetryLoop_step_break r
    [Event.reserve account.address (s.account_nonces account.address)]
    hmsg' hcls]
  exact ⟨rfl, rfl, rfl, rfl⟩

def sampleNetBroken : Nat → SignedTx → TxResult :=
  fun _ _ => TxResult.exn ("insufficient funds for gas")

theorem C3_non_retryable_no_retry_witness :
    (sampleSignFn
      (build_transaction sampleState sampleAccount.address
        (sampleState.account_nonces sampleAccount.address))
      sampleAccount.private_key = Except.ok sampleSigned)
    ∧ (sampleNetBroken
        ((sampleState.current_sync_node_index + 1) % sampleState.numSyncNodes)
        sampleSigned = TxResult.exn ("insufficient funds for gas"))
    ∧ isNonceCollisionMsg ("insufficient funds for gas") = false
    ∧ 1 ≤ 3
    ∧ ((broadcastEndpoints
          (submit_spotdata_transaction sampleState sampleAccount sampleSignFn
            sampleNetBroken 3).events).length = 1
      ∧ (submit_spotdata_transaction sampleState sampleAccount sampleSignFn
          sampleNetBroken 3).success = false
      ∧ (submit_spotdata_transaction sampleState sampleAccount sampleSignFn
          sampleNetBroken 3).txHash = none
      ∧ (submit_spotdata_transaction sampleState sampleAccount sampleSignFn
          sampleNetBroken 3).state.failed_submissions
          = sampleState.failed_submissions + 1) :=
  ⟨rfl, rfl, by decide, by decide,
    C3_non_retryable_no_retry sampleState sampleAccount sampleSignFn
      sampleNetBroken 3 sampleSigned ("insufficient funds for gas") rfl rfl
      (by decide) (by decide)⟩

/-! ### C9 -/

/-- C9: for every account, every signing outcome and every network behaviour,
`submit_spotdata_transaction` is a total function returning an outcome value:
either success with a transaction id and the succeeded counter bumped, or
failure with no id and the failed counter bumped. No exception propagates to
the caller; per-item errors are visible only through the returned outcome and
the counters. -/
theorem C9_errors_into_outcome (s : SenderState) (account : Account)
    (signFn : Transaction → String → Except String SignedTx)
    (net : Nat → SignedTx → TxResult) (R : Nat) :
    ((submit_spotdata_transaction s account signFn net R).success = true
      ∧ (∃ h, (submit_spotdata_transaction s account signFn net R).txHash
          = some h)
      ∧ (submit_spotdata_transaction s account signFn net
          R).state.successful_submissions = s.successful_submissions + 1
      ∧ (submit_spotdata_transaction s account signFn net
          R).state.failed_submissions = s.failed_submissions)
    ∨ ((submit_spotdata_transaction s account signFn net R).success = false
      ∧ (submit_spotdata_transaction s account signFn net R).txHash = none
      ∧ (submit_spotdata_transaction s account signFn net
          R).state.failed_submissions = s.failed_submissions + 1
      ∧ (submit_spotdata_transaction s account signFn net
          R).state.successful_submissions = s.successful_submissions) := by
  cases hsig : signFn
      (build_transaction s account.address (s.account_nonces account.address))
      account.private_key with
  | error e =>
      rw [submit_sign_error s account signFn net R e hsig]
      exact Or.inr ⟨rfl, rfl, rfl, rfl⟩
  | ok signed =>
      rw [submit_sign_ok s account signFn net R signed hsig]
      set S : SenderState :=
        { s with
          account_nonces := fun a =>
            if a = account.address then s.account_nonces account.address + 1
            else s.account_nonces a
          current_sync_node_index :=
            (s.current_sync_node_index + 1) % s.numSyncNodes } with hS
      rcases submitRetryLoop_outcome net signed R S
          [Event.reserve account.address (s.account_nonces account.address)]
        with ⟨h1, h2, h3, h4⟩ | ⟨h1, h2, h3, h4⟩
      · exact Or.inl ⟨h1, h2, h3, h4⟩
      · exact Or.inr ⟨h1, h2, h3, h4⟩

/-! ### C4 -/

/-- Iterated reservation: `n` sequential `get_next_nonce` calls on one
account, collecting the returned sequence numbers in call order. -/
def reserveSeq (s : SenderState) (address : Nat) : Nat → List Nat × SenderState
  | 0 => ([], s)
  | n + 1 =>
      let r := get_next_nonce s address
      let rest := reserveSeq r.2 address n
      (r.1 :: rest.1, rest.2)

theorem reserveSeq_values (address : Nat) :
    ∀ (n : Nat) (s : SenderState),
      (reserveSeq s address n).1
        = (List.range n).map (fun k => s.account_nonces address + k)
      ∧ (reserveSeq s address n).2.account_nonces address
        = s.account_nonces address + n := by
  intro n
  induction n with
  | zero => intro s; exact ⟨by simp [reserveSeq], by simp [reserveSeq]⟩
  | succ m ih =>
      intro s
      have hupd : (get_next_nonce s address).2.account_nonces address
          = s.account_nonces address + 1 := by
        simp [get_next_nonce]
      obtain ⟨ih1, ih2⟩ := ih (get_next_nonce s address).2
      constructor
      · show (get_next_nonce s address).1 ::
            (reserveSeq (get_next_nonce s address).2 address m).1 = _
        rw [ih1, hupd]
        have hhead : (get_next_nonce s address).1
            = s.account_nonces address := rfl
        rw [hhead,
          ← map_range_succ_shift (fun k => s.account_nonces address + k) m]
        congr 1
        exact List.map_congr_left fun k _ => by omega
      · show (reserveSeq (get_next_nonce s address).2 address m).2.account_nonces
            address = _
        rw [ih2, hupd]
        omega

/-- The scenario state of the spec: accounts 1, 2 and 3 with nonces seeded at 5, 0 and 12. -/
def seededState : SenderState :=
  { sampleState with
    account_nonces := fun a => if a = 1 then 5 else if a = 2 then 0 else
      if a = 3 then 12 else 0 }

/-- C4: `get_next_nonce` returns the account's current counter and increments
it by one, so `n` sequential reservations starting from value `v` return
exactly `v, v+1, ..., v+n-1` — strictly increasing, hence pairwise distinct,
in reservation order. In particular, a counter seeded at 5 yields 5, 6, 7 on
three sequential calls. -/
theorem C4_reserve_sequential (s : SenderState) (address n : Nat) :
    (get_next_nonce s address).1 = s.account_nonces address
    ∧ (get_next_nonce s address).2.account_nonces address
        = s.account_nonces address + 1
    ∧ (reserveSeq s address n).1
        = (List.range n).map (fun k => s.account_nonces address + k)
    ∧ List.Pairwise (· < ·) (reserveSeq s address n).1
    ∧ ((reserveSeq s address n).1).Nodup
    ∧ (reserveSeq seededState 1 3).1 = [5, 6, 7] := by
  obtain ⟨h1, _⟩ := reserveSeq_values address n s
  have hpair : List.Pairwise (· < ·) (reserveSeq s address n).1 := by
    rw [h1]
    rw [List.pairwise_map]
    exact (List.pairwise_lt_range n).imp fun h => by omega
  refine ⟨rfl, by simp [get_next_nonce], h1, hpair, ?_, by decide⟩
  exact hpair.imp fun h => Nat.ne_of_lt h

/-! ### C5 -/

/-- One account's iteration of the `realign_all_nonces` loop
(`src/sender.py` lines 185-200): pick the next sync node (advancing the shared
rotation), read the ledger's transaction count for the address, and overwrite
the local counter when they differ. A raised read error is caught and the
account is skipped. -/
def realignStep (ledger : Nat → Except String Nat) (st : SenderState)
    (account : Account) : SenderState :=
  let st1 := (get_next_sync_node st).2
  match ledger account.address with
  | Except.ok blockchain_nonce =>
      if blockchain_nonce ≠ st1.account_nonces account.address then
        { st1 with account_nonces := fun a =>
            if a = account.address then blockchain_nonce
            else st1.account_nonces a }
      else st1
  | Except.error _ => st1

/-- Function `realign_all_nonces` (`src/sender.py` lines 176-206): realign every
tracked account against the ledger, then count the realignment pass. -/
def realign_all_nonces (s : SenderState)
    (ledger : Nat → Except String Nat) : SenderState :=
  let s1 := s.accounts.foldl (realignStep ledger) s
  { s1 with nonce_realignments := s1.nonce_realignments + 1 }

theorem realignStep_sets {ledger : Nat → Except String Nat} {b V : Nat}
    (hb : ledger b = Except.ok V) (st : SenderState) (x : Account)
    (hx : x.address = b) :
    (realignStep ledger st x).account_nonces b = V := by
  simp only [realignStep, get_next_sync_node, hx, hb]
  by_cases hne : V ≠ st.account_nonces b
  · simp [hne]
  · push_neg at hne
    simp [hne]

theorem realignStep_keeps {ledger : Nat → Except String Nat} {b V : Nat}
    (hb : ledger b = Except.ok V) (st : SenderState) (x : Account)
    (hst : st.account_nonces b = V) :
    (realignStep ledger st x).account_nonces b = V := by
  by_cases hx : x.address = b
  · exact realignStep_sets hb st x hx
  · have hbx : ¬b = x.address := fun h => hx h.symm
    simp only [realignStep, get_next_sync_node]
    cases hled : ledger x.address with
    | ok bn =>
        simp only [hled]
        by_cases hne : bn ≠ st.account_nonces x.address
        · simp [hne, hbx, hst]
        · simp [hne, hst]
    | error e =>
        simp only [hled]
        simpa using hst

theorem realign_fold {ledger : Nat → Except String Nat} {b V : Nat}
    (hb : ledger b = Except.ok V) :
    ∀ (l : List Account) (st : SenderState),
      (b ∈ l.map Account.address ∨ st.account_nonces b = V) →
      (l.foldl (realignStep ledger) st).account_nonces b = V := by
  intro l
  induction l with
  | nil =>
      intro st h
      rcases h with h | h
      · simp at h
      · simpa using h
  | cons x xs ih =>
      intro st h
      rw [List.foldl_cons]
      by_cases hx : x.address = b
      · exact ih _ (Or.inr (realignStep_sets hb st x hx))
      · rcases h with h | h
        · rcases List.mem_map.mp h with ⟨y, hy, hyb⟩
          rcases List.mem_cons.mp hy with rfl | hy'
          · exact absurd hyb hx
          · exact ih _ (Or.inl (List.mem_map.mpr ⟨y, hy', hyb⟩))
        · exact ih _ (Or.inr (realignStep_keeps hb st x h))

/-- C5: after reconciliation observes ledger value `V` for an account, the
next `get_next_nonce` call for that account returns exactly `V` — even when
the local counter had drifted above (or below) `V`. -/
theorem C5_reconcile_convergence (s : SenderState)
    (ledger : Nat → Except String Nat) (account : Account) (V : Nat)
    (hmem : account ∈ s.accounts)
    (hled : ledger account.address = Except.ok V) :
    (realign_all_nonces s ledger).account_nonces account.address = V
    ∧ (get_next_nonce (realign_all_nonces s ledger) account.address).1 = V := by
  have h : (realign_all_nonces s ledger).account_nonces account.address = V := by
    show (s.accounts.foldl (realignStep ledger) s).account_nonces
        account.address = V
    exact realign_fold hled s.accounts s
      (Or.inl (List.mem_map.mpr ⟨account, hmem, rfl⟩))
  exact ⟨h, h⟩

/-- A drifted state: the engine's local counter reads 10 while the ledger
reports 4. -/
def driftedState : SenderState :=
  { sampleState with
    accounts := [sampleAccount]
    account_nonces := fun _ => 10 }

def sampleLedger : Nat → Except String Nat := fun _ => Except.ok 4

theorem C5_reconcile_convergence_witness :
    sampleAccount ∈ driftedState.accounts
    ∧ sampleLedger sampleAccount.address = Except.ok 4
    ∧ ((realign_all_nonces driftedState sampleLedger).account_nonces
        sampleAccount.address = 4
      ∧ (get_next_nonce (realign_all_nonces driftedState sampleLedger)
          sampleAccount.address).1 = 4) :=
  ⟨by decide, rfl,
    C5_reconcile_convergence driftedState sampleLedger sampleAccount 4
      (by decide) rfl⟩

/-! ### C6 -/

/-- The read-side endpoint selection: every read site in the source
(gas price / `initialize_nonces` / `realign_all_nonces` lookups, the `w3_read`
of `src/sender.py` line 247) calls `get_next_sync_node`. -/
def next_read (s : SenderState) : Nat × SenderState :=
  get_next_sync_node s

/-- The write-side endpoint selection: the broadcast site (`w3_write`,
`src/sender.py` line 272) calls the same `get_next_sync_node`. -/
def next_write (s : SenderState) : Nat × SenderState :=
  get_next_sync_node s

/-- Running `n` successive endpoint selections, collecting the chosen endpoints in
order. -/
def selectSeq (s : SenderState) : Nat → List Nat × SenderState
  | 0 => ([], s)
  | n + 1 =>
      let r := get_next_sync_node s
      let rest := selectSeq r.2 n
      (r.1 :: rest.1, rest.2)

/-- A pool of two endpoints with the rotation cursor at 0. -/
def poolState : SenderState :=
  { sampleState with numSyncNodes := 2 }

/-- C6 counterexample: read and write selection do NOT have independent
cursors. With 2 endpoints and the cursor at 0, the next write would pick
endpoint 0, but after one interleaved read selection the next write picks
endpoint 1: the read advanced the write rotation. -/
theorem C6_counterexample :
    (next_write ((next_read poolState).2)).1 ≠ (next_write poolState).1
    ∧ (next_write ((next_read poolState).2)).1 = 1
    ∧ (next_write poolState).1 = 0 := by
  decide

theorem selectSeq_rotation :
    ∀ (n : Nat) (s : SenderState),
      s.current_sync_node_index < s.numSyncNodes →
      (selectSeq s n).1
        = (List.range n).map
            (fun k => (s.current_sync_node_index + k) % s.numSyncNodes) := by
  intro n
  induction n with
  | zero => intro s _; simp [selectSeq]
  | succ m ih =>
      intro s hc
      have hN : 0 < s.numSyncNodes := Nat.lt_of_le_of_lt (Nat.zero_le _) hc
      have hself : s.current_sync_node_index % s.numSyncNodes
          = s.current_sync_node_index := Nat.mod_eq_of_lt hc
      show s.current_sync_node_index ::
          (selectSeq (get_next_sync_node s).2 m).1 = _
      rw [ih (get_next_sync_node s).2 (Nat.mod_lt _ hN)]
      have hbody : ∀ k,
          ((get_next_sync_node s).2.current_sync_node_index + k)
              % (get_next_sync_node s).2.numSyncNodes
            = (s.current_sync_node_index + (k + 1)) % s.numSyncNodes := by
        intro k
        show ((s.current_sync_node_index + 1) % s.numSyncNodes + k)
            % s.numSyncNodes = _
        rw [Nat.mod_add_mod]
        congr 1
        omega
      rw [List.map_congr_left fun k _ => hbody k,
        ← map_range_succ_shift
          (fun k => (s.current_sync_node_index + k) % s.numSyncNodes) m]
      rw [Nat.add_zero, hself]

theorem rotation_mem (c N : Nat) (hc : c < N) (e : Nat) (he : e < N) :
    e ∈ (List.range N).map (fun k => (c + k) % N) := by
  have hN : 0 < N := Nat.lt_of_le_of_lt (Nat.zero_le _) he
  refine List.mem_map.mpr
    ⟨(e + N - c) % N, List.mem_range.mpr (Nat.mod_lt _ hN), ?_⟩
  rw [Nat.add_mod_mod]
  rw [Nat.add_sub_cancel' (Nat.le_trans (Nat.le_of_lt hc) (Nat.le_add_left N e))]
  rw [Nat.add_mod_right]
  exact Nat.mod_eq_of_lt he

/-- C6 amended: endpoint selection is round-robin over a single shared cursor
(`current_sync_node_index`), used by reads and writes alike: `N` successive
selections (any mix of reads and writes) return each endpoint exactly once, in
the fixed rotation order starting at the cursor; because the cursor is shared,
read selections advance the same rotation the writes consume. -/
theorem C6_shared_round_robin (s : SenderState)
    (hcur : s.current_sync_node_index < s.numSyncNodes) :
    (selectSeq s s.numSyncNodes).1
      = (List.range s.numSyncNodes).map
          (fun k => (s.current_sync_node_index + k) % s.numSyncNodes)
    ∧ ((selectSeq s s.numSyncNodes).1).Nodup
    ∧ (∀ e, e < s.numSyncNodes →
        ((selectSeq s s.numSyncNodes).1).count e = 1)
    ∧ next_read = next_write := by
  have hrot := selectSeq_rotation s.numSyncNodes s hcur
  have hnodup : ((selectSeq s s.numSyncNodes).1).Nodup := by
    rw [hrot]
    exact rotation_nodup s.current_sync_node_index s.numSyncNodes
      s.numSyncNodes (Nat.le_refl _)
  refine ⟨hrot, hnodup, ?_, rfl⟩
  intro e he
  refine List.count_eq_one_of_mem hnodup ?_
  rw [hrot]
  exact rotation_mem s.current_sync_node_index s.numSyncNodes hcur e he

theorem C6_shared_round_robin_witness :
    poolState.current_sync_node_index < poolState.numSyncNodes
    ∧ ((selectSeq poolState poolState.numSyncNodes).1
        = (List.range poolState.numSyncNodes).map
            (fun k => (poolState.current_sync_node_index + k)
              % poolState.numSyncNodes)
      ∧ ((selectSeq poolState poolState.numSyncNodes).1).Nodup
      ∧ (∀ e, e < poolState.numSyncNodes →
          ((selectSeq poolState poolState.numSyncNodes).1).count e = 1)
      ∧ next_read = next_write) :=
  ⟨by decide, C6_shared_round_robin poolState (by decide)⟩

/-! ### C7 -/

/-- C7: evaluation of the engine's counters at a failing WorkItem. The
broadcast raises a non-retryable error, so the item is consumed and recorded
as failed — but `submissions_count` (the attempted counter, `src/sender.py`
line 280) is only incremented on the success path, so after this item
`attempted = 0` while `succeeded + failed = 1`: the invariant
`attempted = succeeded + failed` does not hold. -/
theorem C7_attempted_counter_not_bumped_on_failure :
    (submit_spotdata_transaction sampleState sampleAccount sampleSignFn
        sampleNetBroken 3).state.submissions_count = 0
    ∧ (submit_spotdata_transaction sampleState sampleAccount sampleSignFn
        sampleNetBroken 3).state.successful_submissions = 0
    ∧ (submit_spotdata_transaction sampleState sampleAccount sampleSignFn
        sampleNetBroken 3).state.failed_submissions = 1
    ∧ ¬((submit_spotdata_transaction sampleState sampleAccount sampleSignFn
          sampleNetBroken 3).state.submissions_count
        = (submit_spotdata_transaction sampleState sampleAccount sampleSignFn
            sampleNetBroken 3).state.successful_submissions
          + (submit_spotdata_transaction sampleState sampleAccount sampleSignFn
              sampleNetBroken 3).state.failed_submissions) := by
  decide

/-! ### C8 -/

/-- The bounded FIFO queue `queue.Queue(maxsize=...)` used as
`transaction_queue` (`src/transactioneer_with_queue.py` line 52). -/
structure BQueue (α : Type) where
  items : List α
  maxsize : Nat
deriving DecidableEq

/-- Immediate outcome of CPython `Queue.put(item, block)` on a bounded queue:
when the queue is full it blocks if `block=True` (waits for space; no
transition completes) and raises `queue.Full` if `block=False`; otherwise the
item is appended. -/
inductive PutOutcome (α : Type) where
  | completed (q : BQueue α)
  | blocked
  | raisedFull
deriving DecidableEq

/-- CPython `Queue.put`: full means `0 < maxsize ≤ qsize()`. -/
def BQueue.put {α : Type} (q : BQueue α) (item : α) (block : Bool) :
    PutOutcome α :=
  if 0 < q.maxsize ∧ q.maxsize ≤ q.items.length then
    (if block then PutOutcome.blocked else PutOutcome.raisedFull)
  else
    PutOutcome.completed { items := q.items ++ [item], maxsize := q.maxsize }

/-- Method `Queue.get`: the FIFO head, or empty. -/
def BQueue.popFront {α : Type} : BQueue α → Option (α × BQueue α)
  | { items := [], maxsize := _ } => none
  | { items := x :: xs, maxsize := m } => some (x, { items := xs, maxsize := m })

/-- Function `add_transaction` (`src/transactioneer_with_queue.py` lines 65-82): builds
the params dict and calls `transaction_queue.put(transaction_params)` —
CPython's default is `block=True`. -/
def add_transaction (q : BQueue TxParams) (file_hashs url_domains : List String)
    (item_counts : List Nat) (extra : String) : PutOutcome TxParams :=
  let transaction_params : TxParams :=
    { file_hashs := file_hashs
      url_domains := url_domains
      item_counts := item_counts
      extra := extra }
  q.put transaction_params true

/-- The queue as constructed at `src/transactioneer_with_queue.py` line 52. -/
def transaction_queue : BQueue TxParams :=
  { items := [], maxsize := 1000000 }

/-- The transaction queue filled to its capacity limit. -/
def fullQueue : BQueue TxParams :=
  { items := List.replicate 1000000 sampleParams, maxsize := 1000000 }

/-- C8 counterexample: on the bounded work queue at its capacity limit,
`add_transaction` (Python `Queue.put` with the default `block=True`) BLOCKS;
it does not fail (raise `queue.Full`), contrary to the claim that enqueue
fails at capacity. -/
theorem C8_counterexample :
    add_transaction fullQueue [] [] [] "" = PutOutcome.blocked
    ∧ add_transaction fullQueue [] [] [] "" ≠ PutOutcome.raisedFull := by
  have hlen : fullQueue.items.length = 1000000 := by
    show (List.replicate 1000000 sampleParams).length = 1000000
    exact List.length_replicate _ _
  have hcond : 0 < fullQueue.maxsize
      ∧ fullQueue.maxsize ≤ fullQueue.items.length := by
    refine ⟨by show (0 : Nat) < 1000000; omega, ?_⟩
    show (1000000 : Nat) ≤ fullQueue.items.length
    omega
  have h : add_transaction fullQueue [] [] [] "" = PutOutcome.blocked := by
    show BQueue.put fullQueue _ true = PutOutcome.blocked
    unfold BQueue.put
    rw [if_pos hcond]
    rfl
  refine ⟨h, ?_⟩
  rw [h]
  exact fun hab => PutOutcome.noConfusion hab

/-- C8 amended: `put` with `block=True` on the bounded queue blocks (rather
than failing) at the positive capacity limit — backpressure; below capacity
the item is appended, the depth grows by one and stays within the bound, and
the item remains counted in the queue (no silent drop); the operation never
raises `queue.Full`. -/
theorem C8_backpressure (q : BQueue TxParams) (item : TxParams)
    (hpos : 0 < q.maxsize) :
    (q.maxsize ≤ q.items.length → BQueue.put q item true = PutOutcome.blocked)
    ∧ (q.items.length < q.maxsize →
        BQueue.put q item true = PutOutcome.completed
          { items := q.items ++ [item], maxsize := q.maxsize }
        ∧ (q.items ++ [item]).length ≤ q.maxsize
        ∧ (q.items ++ [item]).count item = q.items.count item + 1)
    ∧ BQueue.put q item true ≠ PutOutcome.raisedFull := by
  by_cases hfull : q.maxsize ≤ q.items.length
  · have hput : BQueue.put q item true = PutOutcome.blocked := by
      simp [BQueue.put, hpos, hfull]
    refine ⟨fun _ => hput, fun hlt => absurd hfull (by omega), ?_⟩
    rw [hput]
    exact fun hab => PutOutcome.noConfusion hab
  · have hput : BQueue.put q item true = PutOutcome.completed
        { items := q.items ++ [item], maxsize := q.maxsize } := by
      simp [BQueue.put, hfull]
    refine ⟨fun hle => absurd hle hfull, fun hlt => ⟨hput, ?_, ?_⟩, ?_⟩
    · simp only [List.length_append, List.length_singleton]
      omega
    · simp [List.count_append]
    · rw [hput]
      exact fun hab => PutOutcome.noConfusion hab

theorem C8_backpressure_witness :
    0 < transaction_queue.maxsize
    ∧ ((transaction_queue.maxsize ≤ transaction_queue.items.length →
        BQueue.put transaction_queue sampleParams true = PutOutcome.blocked)
      ∧ (transaction_queue.items.length < transaction_queue.maxsize →
          BQueue.put transaction_queue sampleParams true = PutOutcome.completed
            { items := transaction_queue.items ++ [sampleParams]
              maxsize := transaction_queue.maxsize }
          ∧ (transaction_queue.items ++ [sampleParams]).length
              ≤ transaction_queue.maxsize
          ∧ (transaction_queue.items ++ [sampleParams]).count sampleParams
              = transaction_queue.items.count sampleParams + 1)
      ∧ BQueue.put transaction_queue sampleParams true
          ≠ PutOutcome.raisedFull) :=
  ⟨by decide, C8_backpressure transaction_queue sampleParams (by decide)⟩

/-! ### C10 -/

def defaultAccount : Account := { address := 0, private_key := "", index := 0 }

/-- Function `load_accounts` of `src/quick_funding.py` lines 85-94: the first 200
accounts are funding sources; accounts at positions 200..1999
(`all_accounts[200:2000]`) are targets. -/
def split_accounts (all_accounts : List Account) :
    List Account × List Account :=
  (all_accounts.take 200, (all_accounts.drop 200).take 1800)

/-- The funder chosen for the target at position `i`:
`funder_index = i % len(self.funding_accounts)` (`src/quick_funding.py`
lines 124-126). -/
def funder_for (funding_accounts : List Account) (i : Nat) : Account :=
  funding_accounts.getD (i % funding_accounts.length) defaultAccount

/-- The schedule-building loop of `initialize_funding_nonces_and_schedule`
(`src/quick_funding.py` lines 123-127): `self.funding_schedule` is a
`defaultdict(list)` keyed by funder address; each target is appended to its
funder's list. `i` is the enumeration position of the head of the remaining
target list. -/
def buildScheduleAux (funding_accounts : List Account) :
    Nat → List Account → (Nat → List Account) → Nat → List Account
  | _, [], sched => sched
  | i, t :: ts, sched =>
      buildScheduleAux funding_accounts (i + 1) ts
        (fun a => if a = (funder_for funding_accounts i).address
          then sched a ++ [t] else sched a)

/-- The complete schedule built from the funding and target account lists. -/
def funding_schedule (funding_accounts target_accounts : List Account) :
    Nat → List Account :=
  buildScheduleAux funding_accounts 0 target_accounts (fun _ => [])

/-- Specification view of the loop: the sublist of `ts` (whose head sits at
enumeration position `i`) assigned to the funder with address `addr`. -/
def assignedTargets (funding_accounts : List Account) (addr : Nat) :
    Nat → List Account → List Account
  | _, [] => []
  | i, t :: ts =>
      (if (funder_for funding_accounts i).address = addr then [t] else [])
        ++ assignedTargets funding_accounts addr (i + 1) ts

theorem buildScheduleAux_eq (funding_accounts : List Account) :
    ∀ (ts : List Account) (i : Nat) (sched : Nat → List Account) (addr : Nat),
      buildScheduleAux funding_accounts i ts sched addr
        = sched addr ++ assignedTargets funding_accounts addr i ts := by
  intro ts
  induction ts with
  | nil => intro i sched addr; simp [buildScheduleAux, assignedTargets]
  | cons t ts ih =>
      intro i sched addr
      show buildScheduleAux funding_accounts (i + 1) ts _ addr = _
      rw [ih]
      show (if addr = (funder_for funding_accounts i).address
          then sched addr ++ [t] else sched addr)
          ++ assignedTargets funding_accounts addr (i + 1) ts
        = sched addr ++ assignedTargets funding_accounts addr i (t :: ts)
      simp only [assignedTargets]
      by_cases h : (funder_for funding_accounts i).address = addr
      · rw [if_pos h, if_pos h.symm, List.append_assoc]
      · rw [if_neg h, if_neg (fun hh => h hh.symm), List.nil_append]

theorem mem_assignedTargets (funding_accounts : List Account) (addr : Nat) :
    ∀ (ts : List Account) (i : Nat) (t : Account),
      t ∈ assignedTargets funding_accounts addr i ts
        ↔ ∃ j, j < ts.length ∧ ts.getD j defaultAccount = t
            ∧ (funder_for funding_accounts (i + j)).address = addr := by
  intro ts
  induction ts with
  | nil => intro i t; simp [assignedTargets]
  | cons x xs ih =>
      intro i t
      simp only [assignedTargets, List.mem_append]
      constructor
      · rintro (hmem | hmem)
        · by_cases h : (funder_for funding_accounts i).address = addr
          · rw [if_pos h] at hmem
            refine ⟨0, by simp, ?_, by simpa using h⟩
            rw [List.getD_cons_zero]
            exact (List.mem_singleton.mp hmem).symm
          · rw [if_neg h] at hmem
            exact absurd hmem (List.not_mem_nil t)
        · obtain ⟨j, hj, hget, hfun⟩ := (ih (i + 1) t).mp hmem
          refine ⟨j + 1, by simpa using hj, ?_, ?_⟩
          · rw [List.getD_cons_succ]
            exact hget
          · rw [show i + (j + 1) = i + 1 + j by omega]
            exact hfun
      · rintro ⟨j, hj, hget, hfun⟩
        cases j with
        | zero =>
            left
            rw [List.getD_cons_zero] at hget
            rw [if_pos (by simpa using hfun)]
            simp [hget]
        | succ m =>
            right
            refine (ih (i + 1) t).mpr ⟨m, by simpa using hj, ?_, ?_⟩
            · rw [List.getD_cons_succ] at hget
              exact hget
            · rw [show i + 1 + m = i + (m + 1) by omega]
              exact hfun

theorem mem_funding_schedule (funding_accounts target_accounts : List Account)
    (addr : Nat) (t : Account) :
    t ∈ funding_schedule funding_accounts target_accounts addr
      ↔ ∃ j, j < target_accounts.length
          ∧ target_accounts.getD j defaultAccount = t
          ∧ (funder_for funding_accounts j).address = addr := by
  show t ∈ buildScheduleAux funding_accounts 0 target_accounts (fun _ => []) addr
    ↔ _
  rw [buildScheduleAux_eq]
  simp only [List.nil_append]
  rw [mem_assignedTargets]
  simp only [Nat.zero_add]

theorem addr_index_inj (funding_accounts : List Account)
    (hnodup : (funding_accounts.map Account.address).Nodup)
    {a b : Nat} (ha : a < funding_accounts.length)
    (hb : b < funding_accounts.length)
    (h : (funding_accounts.getD a defaultAccount).address
        = (funding_accounts.getD b defaultAccount).address) : a = b := by
  rw [List.getD_eq_getElem _ _ ha, List.getD_eq_getElem _ _ hb] at h
  have ha' : a < (funding_accounts.map Account.address).length := by simpa
  have hb' : b < (funding_accounts.map Account.address).length := by simpa
  have he : (funding_accounts.map Account.address)[a]
      = (funding_accounts.map Account.address)[b] := by
    rw [List.getElem_map, List.getElem_map]
    exact h
  exact (List.Nodup.getElem_inj_iff hnodup).mp he

theorem target_index_inj (target_accounts : List Account)
    (hnodup : target_accounts.Nodup)
    {a b : Nat} (ha : a < target_accounts.length)
    (hb : b < target_accounts.length)
    (h : target_accounts.getD a defaultAccount
        = target_accounts.getD b defaultAccount) : a = b := by
  rw [List.getD_eq_getElem _ _ ha, List.getD_eq_getElem _ _ hb] at h
  exact (List.Nodup.getElem_inj_iff hnodup).mp h

/-- C10: the funding schedule built from 200 funding accounts and 1800 target
accounts is a partition of the targets: the target at position `i` lands in
the list of funder `i % 200`; no target appears in the lists of two distinct
funders; and the union of all funders' lists is exactly the target list. -/
theorem C10_funding_schedule_partition
    (funding_accounts target_accounts : List Account)
    (hf : funding_accounts.length = 200)
    (ht : target_accounts.length = 1800)
    (hnodupF : (funding_accounts.map Account.address).Nodup)
    (hnodupT : target_accounts.Nodup) :
    (∀ i, i < 1800 →
      target_accounts.getD i defaultAccount ∈
        funding_schedule funding_accounts target_accounts
          ((funding_accounts.getD (i % 200) defaultAccount).address))
    ∧ (∀ t j k, j < 200 → k < 200 →
        t ∈ funding_schedule funding_accounts target_accounts
            ((funding_accounts.getD j defaultAccount).address) →
        t ∈ funding_schedule funding_accounts target_accounts
            ((funding_accounts.getD k defaultAccount).address) →
        j = k)
    ∧ (∀ t, (∃ j, j < 200 ∧
          t ∈ funding_schedule funding_accounts target_accounts
            ((funding_accounts.getD j defaultAccount).address))
        ↔ t ∈ target_accounts) := by
  have hfun : ∀ i, funder_for funding_accounts i
      = funding_accounts.getD (i % 200) defaultAccount := by
    intro i
    unfold funder_for
    rw [hf]
  refine ⟨?_, ?_, ?_⟩
  · intro i hi
    rw [mem_funding_schedule]
    exact ⟨i, by omega, rfl, by rw [hfun]⟩
  · intro t j k hj hk hmj hmk
    obtain ⟨j', hj', hgj, haj⟩ := (mem_funding_schedule _ _ _ _).mp hmj
    obtain ⟨k', hk', hgk, hak⟩ := (mem_funding_schedule _ _ _ _).mp hmk
    have hjk : j' = k' := target_index_inj target_accounts hnodupT hj' hk'
      (by rw [hgj, hgk])
    rw [hfun] at haj hak
    have haj' : j' % 200 = j := addr_index_inj funding_accounts hnodupF
      (by omega) (by omega) haj
    have hak' : k' % 200 = k := addr_index_inj funding_accounts hnodupF
      (by omega) (by omega) hak
    omega
  · intro t
    constructor
    · rintro ⟨j, _, hmem⟩
      obtain ⟨j', hj', hgj, _⟩ := (mem_funding_schedule _ _ _ _).mp hmem
      rw [← hgj, List.getD_eq_getElem _ _ hj']
      exact List.getElem_mem _
    · intro hmem
      obtain ⟨i, hi, hgi⟩ := List.mem_iff_getElem.mp hmem
      refine ⟨i % 200, by omega, ?_⟩
      rw [mem_funding_schedule]
      refine ⟨i, hi, ?_, by rw [hfun]⟩
      rw [List.getD_eq_getElem _ _ hi]
      exact hgi

/-- Two hundred concrete funding accounts with pairwise distinct addresses. -/
def witnessFunders : List Account :=
  (List.range 200).map (fun k =>
    { address := k, private_key := "", index := k })

/-- Eighteen hundred concrete target accounts, pairwise distinct. -/
def witnessTargets : List Account :=
  (List.range 1800).map (fun k =>
    { address := 200 + k, private_key := "", index := 200 + k })

theorem witnessFunders_length : witnessFunders.length = 200 := by
  simp [witnessFunders]

theorem witnessTargets_length : witnessTargets.length = 1800 := by
  simp [witnessTargets]

theorem witnessFunders_nodup : (witnessFunders.map Account.address).Nodup := by
  have h : witnessFunders.map Account.address = List.range 200 := by
    rw [witnessFunders, List.map_map]
    have hcomp : (Account.address ∘ fun k =>
        ({ address := k, private_key := "", index := k } : Account))
        = fun k => k := rfl
    rw [hcomp]
    simp
  rw [h]
  exact List.nodup_range 200

theorem witnessTargets_nodup : witnessTargets.Nodup := by
  refine List.Nodup.map ?_ (List.nodup_range 1800)
  intro a b hab
  have h := congrArg Account.index hab
  simp only at h
  omega

theorem C10_funding_schedule_partition_witness :
    witnessFunders.length = 200
    ∧ witnessTargets.length = 1800
    ∧ (witnessFunders.map Account.address).Nodup
    ∧ witnessTargets.Nodup
    ∧ ((∀ i, i < 1800 →
        witnessTargets.getD i defaultAccount ∈
          funding_schedule witnessFunders witnessTargets
            ((witnessFunders.getD (i % 200) defaultAccount).address))
      ∧ (∀ t j k, j < 200 → k < 200 →
          t ∈ funding_schedule witnessFunders witnessTargets
              ((witnessFunders.getD j defaultAccount).address) →
          t ∈ funding_schedule witnessFunders witnessTargets
              ((witnessFunders.getD k defaultAccount).address) →
          j = k)
      ∧ (∀ t, (∃ j, j < 200 ∧
            t ∈ funding_schedule witnessFunders witnessTargets
              ((witnessFunders.getD j defaultAccount).address))
          ↔ t ∈ witnessTargets)) :=
  ⟨witnessFunders_length, witnessTargets_length, witnessFunders_nodup,
    witnessTargets_nodup,
    C10_funding_schedule_partition witnessFunders witnessTargets
      witnessFunders_length witnessTargets_length witnessFunders_nodup
      witnessTargets_nodup⟩
